import Mathlib

/-!
Shallow embedding of the chat server state engine of this repository
(src/server.js and its fuller variant src/unnamed/part_001) and proofs of
the specified properties.

Modelling conventions:
* JavaScript `Map` objects (connectedUsers, privateChats, messageLimits)
  become association lists in insertion order; `Map.set` replaces in place
  when the key exists, else appends, and lookups return the first match.
* A JS object used as a dictionary (message.reactions) becomes an
  association list whose keys are unique; creating a new key appends it,
  `delete` removes it, so insertion order of symbols is preserved.
* Timestamps are milliseconds as `Int`; `new Date(x).getTime()` of a stored
  ISO timestamp is the stored value, and a message whose timestamp failed to
  parse (`isFinite` false in the source) is `none`.
* `Date.now()`, `Math.random()`-derived ids and suffixes are oracle inputs
  passed explicitly.
* socket.io emissions are collected in an `Emit` list; `io.emit` broadcasts
  are the constructors without a socket id, unicast carries the target id.
-/

/-- MAX_MESSAGES in src/server.js line 65 / part_001 line 39. -/
def MAX_MESSAGES : Nat := 200

/-- MESSAGE_TTL_MS = 24 * 60 * 60 * 1000 (src/server.js line 66). -/
def MESSAGE_TTL_MS : Int := 24 * 60 * 60 * 1000

/-- MESSAGE_RATE_LIMIT (src/server.js line 71). -/
def MESSAGE_RATE_LIMIT : Nat := 10

/-- RATE_LIMIT_WINDOW in milliseconds (src/server.js line 72). -/
def RATE_LIMIT_WINDOW : Int := 60000

/-- MAX_PRIVATE_MESSAGES, the private-chat log cap (part_001 line 46,
hard-coded as 100 in src/server.js line 200). -/
def MAX_PRIVATE_MESSAGES : Nat := 100

/-- Reaction state of one message: reaction symbol to the users holding it,
in symbol insertion order (a JS object literal). -/
abbrev Reactions : Type := List (String × List String)

/-- A broadcast chat message as stored in recentMessages
(src/server.js lines 322-330). -/
structure Msg where
  id : String
  username : String
  message : String
  replyTo : Option String
  avatar : String
  timestamp : Option Int
  reactions : Reactions
deriving DecidableEq

/-- A live session: one entry of the connectedUsers map
(src/server.js lines 230-235; joinTime is never read and is omitted). -/
structure Session where
  username : String
  socketId : String
  avatar : String
deriving DecidableEq

/-- One rate-limit window: an entry of messageLimits (src/server.js line 79). -/
structure RLEntry where
  count : Nat
  resetTime : Int
deriving DecidableEq

/-- A private-chat message (part_001 lines 485-492). -/
structure PrivMsg where
  id : String
  username : String
  message : String
  timestamp : Int
  reactions : Reactions
  isPrivate : Bool
deriving DecidableEq

/-- A private chat (src/server.js lines 185-190); participants is the sorted
pair the JS Set was built from. -/
structure Chat where
  id : String
  participants : List String
  messages : List PrivMsg
  created : Int
deriving DecidableEq

/-- An outbound socket.io emission. Constructors carrying a socket id are
unicast to that connection; the others are io.emit broadcasts. -/
inductive Emit where
  | errorTo (sid : String) (msg : String)
  | broadcastMessage (m : Msg)
  | broadcastDeleted (ids : List String)
  | reactionBroadcast (messageId reaction username action : String)
  | privateTo (sid : String) (m : PrivMsg) (chatId fromUsername : String)
  | acceptedTo (sid byUsername chatId : String)
  | historyTo (sid chatId : String) (messages : List PrivMsg) (withUsername : String)
deriving DecidableEq

/-- The mutable server state the handlers touch. -/
structure ServerState where
  connectedUsers : List Session
  recentMessages : List Msg
  privateChats : List (String × Chat)
  messageLimits : List (String × RLEntry)
deriving DecidableEq

/-- JS truthiness of an optional string: missing and the empty string are
falsy. -/
def jsFalsy (s : Option String) : Bool :=
  match s with
  | none => true
  | some v => v == ""

/-- connectedUsers.get(socketId): the entry with this socket id. -/
def findSession (conns : List Session) (sid : String) : Option Session :=
  match conns with
  | [] => none
  | s :: rest => if s.socketId = sid then some s else findSession rest sid

/-- Array.from(connectedUsers.values()).find(u => u.username === name):
first live session with this username, in registration order. -/
def findByUsername (conns : List Session) (name : String) : Option Session :=
  match conns with
  | [] => none
  | s :: rest => if s.username = name then some s else findByUsername rest name

/-- privateChats.get(chatId). -/
def lookupChat (chats : List (String × Chat)) (chatId : String) : Option Chat :=
  match chats with
  | [] => none
  | p :: rest => if p.1 = chatId then some p.2 else lookupChat rest chatId

/-- messageLimits.get(socketId). -/
def lookupRL (ls : List (String × RLEntry)) (sid : String) : Option RLEntry :=
  match ls with
  | [] => none
  | p :: rest => if p.1 = sid then some p.2 else lookupRL rest sid

/-- Map.set: replace the entry in place when the key is present, else append. -/
def setRL (ls : List (String × RLEntry)) (sid : String) (e : RLEntry) :
    List (String × RLEntry) :=
  match ls with
  | [] => [(sid, e)]
  | p :: rest => if p.1 = sid then (sid, e) :: rest else p :: setRL rest sid e

/-- checkRateLimit (src/server.js lines 75-85): fixed 60s window, cap 10;
a fresh or expired window restarts at count 1 and resetTime now+60000;
at the cap it returns false and leaves the map untouched. -/
def checkRateLimit (ls : List (String × RLEntry)) (sid : String) (now : Int) :
    Bool × List (String × RLEntry) :=
  match lookupRL ls sid with
  | none => (true, setRL ls sid ⟨1, now + RATE_LIMIT_WINDOW⟩)
  | some userLimit =>
    if now > userLimit.resetTime then
      (true, setRL ls sid ⟨1, now + RATE_LIMIT_WINDOW⟩)
    else if userLimit.count ≥ MESSAGE_RATE_LIMIT then (false, ls)
    else (true, setRL ls sid ⟨userLimit.count + 1, userLimit.resetTime⟩)

/-- A sequence of checkRateLimit calls for one connection at the given
times; returns the per-call verdicts and the final map. -/
def runLimiter (ls : List (String × RLEntry)) (sid : String) :
    List Int → List Bool × List (String × RLEntry)
  | [] => ([], ls)
  | t :: rest =>
    let r := checkRateLimit ls sid t
    let r2 := runLimiter r.2 sid rest
    (r.1 :: r2.1, r2.2)

theorem lookupRL_setRL (ls : List (String × RLEntry)) (sid : String) (e : RLEntry) :
    lookupRL (setRL ls sid e) sid = some e := by
  induction ls with
  | nil => simp [setRL, lookupRL]
  | cons p rest ih =>
    by_cases h : p.1 = sid
    · simp [setRL, lookupRL, h]
    · simp [setRL, lookupRL, h, ih]

theorem runLimiter_counts (sid : String) (r : Int) :
    ∀ (ts : List Int) (ls : List (String × RLEntry)) (c : Nat),
      lookupRL ls sid = some ⟨c, r⟩ →
      (∀ t ∈ ts, ¬ (t > r)) →
      (runLimiter ls sid ts).1
        = (List.range ts.length).map (fun i => decide (c + i < MESSAGE_RATE_LIMIT)) := by
  intro ts
  induction ts with
  | nil => intro ls c _ _; simp [runLimiter]
  | cons t rest ih =>
    intro ls c hl ht
    have hin : ¬ (t > r) := ht t (by simp)
    by_cases hc : c ≥ MESSAGE_RATE_LIMIT
    · have hstep : checkRateLimit ls sid t = (false, ls) := by
        simp [checkRateLimit, hl, hin, hc]
      have hrec := ih ls c hl (fun x hx => ht x (by simp [hx]))
      have hfun : ((fun i => decide (c + i < MESSAGE_RATE_LIMIT)) ∘ Nat.succ)
          = (fun i => decide (c + i < MESSAGE_RATE_LIMIT)) := by
        funext i
        simp only [Function.comp_apply]
        have h1 : ¬ (c + Nat.succ i < MESSAGE_RATE_LIMIT) := by
          simp [MESSAGE_RATE_LIMIT] at hc ⊢; omega
        have h2 : ¬ (c + i < MESSAGE_RATE_LIMIT) := by
          simp [MESSAGE_RATE_LIMIT] at hc ⊢; omega
        simp [h1, h2]
      have hhead : decide (c + 0 < MESSAGE_RATE_LIMIT) = false := by
        simp [MESSAGE_RATE_LIMIT] at hc ⊢; omega
      simp only [runLimiter, hstep, hrec, List.length_cons, List.range_succ_eq_map,
        List.map_cons, List.map_map]
      rw [hhead, hfun]
    · have hstep : checkRateLimit ls sid t
          = (true, setRL ls sid ⟨c + 1, r⟩) := by
        simp [checkRateLimit, hl, hin, hc]
      have hrec := ih (setRL ls sid ⟨c + 1, r⟩) (c + 1)
        (lookupRL_setRL ls sid ⟨c + 1, r⟩) (fun x hx => ht x (by simp [hx]))
      have hfun : ((fun i => decide (c + i < MESSAGE_RATE_LIMIT)) ∘ Nat.succ)
          = (fun i => decide (c + 1 + i < MESSAGE_RATE_LIMIT)) := by
        funext i
        simp only [Function.comp_apply]
        rw [Nat.add_succ, Nat.succ_add]
      have hhead : decide (c + 0 < MESSAGE_RATE_LIMIT) = true := by
        simp [MESSAGE_RATE_LIMIT] at hc ⊢; omega
      simp only [runLimiter, hstep, hrec, List.length_cons, List.range_succ_eq_map,
        List.map_cons, List.map_map]
      rw [hhead, hfun]

/-- C4: rate limiter fixed-window semantics. A first call in a fresh or
expired window restarts the window at now+60s with count 1; a call at the
cap returns false and leaves the map untouched (no slot consumed); a call
under the cap increments the count; and from a fresh window, a run of calls
all inside the window returns true for exactly the first 10 calls and false
afterwards. -/
theorem C4_rate_limiter_window (ls : List (String × RLEntry)) (sid : String)
    (now t0 : Int) (e : RLEntry) (ts : List Int) :
    (lookupRL ls sid = none →
      checkRateLimit ls sid now = (true, setRL ls sid ⟨1, now + RATE_LIMIT_WINDOW⟩)) ∧
    (lookupRL ls sid = some e → now > e.resetTime →
      checkRateLimit ls sid now = (true, setRL ls sid ⟨1, now + RATE_LIMIT_WINDOW⟩)) ∧
    (lookupRL ls sid = some e → ¬ now > e.resetTime → e.count ≥ MESSAGE_RATE_LIMIT →
      checkRateLimit ls sid now = (false, ls)) ∧
    (lookupRL ls sid = some e → ¬ now > e.resetTime → e.count < MESSAGE_RATE_LIMIT →
      checkRateLimit ls sid now = (true, setRL ls sid ⟨e.count + 1, e.resetTime⟩)) ∧
    (lookupRL ls sid = none → (∀ t ∈ ts, ¬ (t > t0 + RATE_LIMIT_WINDOW)) →
      (runLimiter ls sid (t0 :: ts)).1
        = (List.range (ts.length + 1)).map (fun i => decide (i < MESSAGE_RATE_LIMIT))) := by
  refine ⟨?_, ?_, ?_, ?_, ?_⟩
  · intro h; simp [checkRateLimit, h]
  · intro h h2; simp [checkRateLimit, h, h2]
  · intro h h2 h3; simp [checkRateLimit, h, h2, h3, Nat.not_lt_of_ge h3]
  · intro h h2 h3
    simp [checkRateLimit, h, h2, Nat.not_le_of_lt h3]
  · intro h ht
    have hstep : checkRateLimit ls sid t0
        = (true, setRL ls sid ⟨1, t0 + RATE_LIMIT_WINDOW⟩) := by
      simp [checkRateLimit, h]
    have hrec := runLimiter_counts sid (t0 + RATE_LIMIT_WINDOW) ts
      (setRL ls sid ⟨1, t0 + RATE_LIMIT_WINDOW⟩) 1
      (lookupRL_setRL ls sid ⟨1, t0 + RATE_LIMIT_WINDOW⟩) ht
    have hfun : ((fun i => decide (i < MESSAGE_RATE_LIMIT)) ∘ Nat.succ)
        = (fun i => decide (1 + i < MESSAGE_RATE_LIMIT)) := by
      funext i
      simp only [Function.comp_apply]
      rw [Nat.one_add]
    have hhead : decide (0 < MESSAGE_RATE_LIMIT) = true := by
      simp [MESSAGE_RATE_LIMIT]
    simp only [runLimiter, hstep, hrec, List.range_succ_eq_map, List.map_cons,
      List.map_map]
    rw [hhead, hfun]

/-- Witness for C4 at a concrete run: an empty map, twelve calls at time 0;
the first 10 return true, calls 11 and 12 return false. -/
theorem C4_rate_limiter_window_witness :
    (runLimiter [] "s" (0 :: List.replicate 11 (0 : Int))).1
      = (List.range 12).map (fun i => decide (i < MESSAGE_RATE_LIMIT)) :=
  (C4_rate_limiter_window [] "s" 0 0 ⟨0, 0⟩ (List.replicate 11 (0 : Int))).2.2.2.2
    (by rfl) (by decide)

/-- recentMessages.findIndex(m => String(m.id) === id) followed by
splice(idx, 1) (src/server.js lines 113-116): remove the first message with
this id, if any. -/
def removeFirstById (hs : List Msg) (i : String) : List Msg :=
  match hs with
  | [] => []
  | m :: rest => if m.id = i then rest else m :: removeFirstById rest i

/-- The TTL test of pruneExpiredMessages (src/server.js line 108): true when
the timestamp parsed (isFinite) and now - ts > MESSAGE_TTL_MS. -/
def isExpired (now : Int) (m : Msg) : Bool :=
  match m.timestamp with
  | some ts => decide (now - ts > MESSAGE_TTL_MS)
  | none => false

/-- The snapshot filter of the login handler (src/server.js lines 252-255):
true when the timestamp parsed and now - ts <= MESSAGE_TTL_MS. -/
def isFresh (now : Int) (m : Msg) : Bool :=
  match m.timestamp with
  | some ts => decide (now - ts ≤ MESSAGE_TTL_MS)
  | none => false

/-- pruneExpiredMessages (src/server.js lines 102-118): collect the ids of
all messages older than the TTL, remove each from the history, and return
the removed ids (broadcast as one message-deleted batch iff nonempty). -/
def pruneExpiredMessages (now : Int) (hs : List Msg) : List Msg × List String :=
  let toDelete := (hs.filter (isExpired now)).map Msg.id
  (toDelete.foldl removeFirstById hs, toDelete)

/-- addMessageToHistory (src/server.js lines 120-130): push the message,
prune by TTL, then silently splice oldest messages beyond MAX_MESSAGES.
The defaulting of a missing id or reactions field is a no-op here because
every caller constructs both fields. -/
def addMessageToHistory (now : Int) (hs : List Msg) (m : Msg) :
    List Msg × List String :=
  let hs1 := hs ++ [m]
  let pr := pruneExpiredMessages now hs1
  (if pr.1.length > MAX_MESSAGES then pr.1.drop (pr.1.length - MAX_MESSAGES)
   else pr.1, pr.2)

/-- The recent-messages snapshot sent on login/connect (src/server.js lines
250-256, part_001 lines 214-221): prune, then filter the stored history at
read time; returns (new stored history, deleted-id batch, snapshot). -/
def loginSnapshot (now : Int) (hs : List Msg) :
    List Msg × List String × List Msg :=
  let pr := pruneExpiredMessages now hs
  (pr.1, pr.2, pr.1.filter (isFresh now))

theorem foldl_removeFirstById_not_mem (ids : List String) (m : Msg) :
    ∀ hs : List Msg, (∀ i ∈ ids, i ≠ m.id) →
      List.foldl removeFirstById (m :: hs) ids
        = m :: List.foldl removeFirstById hs ids := by
  induction ids with
  | nil => intro hs _; rfl
  | cons i rest ih =>
    intro hs h
    have hne : m.id ≠ i := fun he => h i (by simp) he.symm
    simp only [List.foldl_cons, removeFirstById, hne, if_false]
    exact ih (removeFirstById hs i) (fun x hx => h x (by simp [hx]))

theorem foldl_removeFirstById_filter (p : Msg → Bool) :
    ∀ hs : List Msg, (hs.map Msg.id).Nodup →
      List.foldl removeFirstById hs ((hs.filter p).map Msg.id)
        = hs.filter (fun m => !(p m)) := by
  intro hs
  induction hs with
  | nil => intro _; rfl
  | cons m rest ih =>
    intro h
    rw [List.map_cons, List.nodup_cons] at h
    by_cases hp : p m = true
    · rw [List.filter_cons_of_pos hp, List.map_cons, List.foldl_cons]
      have hrm : removeFirstById (m :: rest) m.id = rest := by
        simp [removeFirstById]
      rw [hrm, ih h.2, List.filter_cons_of_neg (by simp [hp])]
    · have hp' : p m = false := Bool.eq_false_iff.mpr hp
      rw [List.filter_cons_of_neg (by simp [hp']), foldl_removeFirstById_not_mem _ _ _
        (fun i hi hieq => h.1 (by
          subst hieq
          rcases List.mem_map.1 hi with ⟨x, hx, hxe⟩
          exact hxe ▸ List.mem_map_of_mem Msg.id (List.mem_of_mem_filter hx))),
        ih h.2, List.filter_cons_of_pos (by simp [hp'])]

/-- C2: capacity eviction is silent. The deleted-id batch addMessageToHistory
reports (and which alone triggers a message-deleted broadcast) is exactly the
ids of the messages older than 24h; when no message is expired the batch is
empty — so no deletion event — and the history is only spliced down to the
newest MAX_MESSAGES entries. -/
theorem C2_capacity_eviction_silent (now : Int) (hs : List Msg) (m : Msg) :
    (addMessageToHistory now hs m).2
        = ((hs ++ [m]).filter (isExpired now)).map Msg.id ∧
    ((∀ x ∈ hs ++ [m], isExpired now x = false) →
      (addMessageToHistory now hs m).2 = [] ∧
      (addMessageToHistory now hs m).1
        = (hs ++ [m]).drop ((hs ++ [m]).length - MAX_MESSAGES)) := by
  constructor
  · rfl
  · intro hall
    have hfil : (hs ++ [m]).filter (isExpired now) = [] :=
      List.filter_eq_nil_iff.mpr (fun x hx => by simp [hall x hx])
    have hprune : pruneExpiredMessages now (hs ++ [m]) = (hs ++ [m], []) := by
      simp [pruneExpiredMessages, hfil]
    constructor
    · simp [addMessageToHistory, hprune]
    · simp only [addMessageToHistory, hprune]
      by_cases hlen : (hs ++ [m]).length > MAX_MESSAGES
      · rw [if_pos hlen]
      · rw [if_neg hlen]
        have h0 : (hs ++ [m]).length - MAX_MESSAGES = 0 := by omega
        rw [h0, List.drop_zero]

/-- A concrete stored message used by witnesses. -/
def mkMsg (i : String) (ts : Int) : Msg :=
  ⟨i, "alice", "hi", none, "s", some ts, []⟩

/-- A concrete 200-message history of fresh messages used by the C2 witness. -/
def hsC2 : List Msg := (List.range MAX_MESSAGES).map (fun n => mkMsg (toString n) 0)

theorem isExpired_mkMsg_zero (i : String) : isExpired 1000 (mkMsg i 0) = false := by
  simp [isExpired, mkMsg, MESSAGE_TTL_MS]

/-- Witness for C2: appending a 201st fresh message to a full 200-message
history deletes nothing via the TTL path and only splices to the newest 200. -/
theorem C2_capacity_eviction_silent_witness :
    (addMessageToHistory 1000 hsC2 (mkMsg "x" 0)).2 = [] ∧
    (addMessageToHistory 1000 hsC2 (mkMsg "x" 0)).1
      = (hsC2 ++ [mkMsg "x" 0]).drop ((hsC2 ++ [mkMsg "x" 0]).length - MAX_MESSAGES) :=
  (C2_capacity_eviction_silent 1000 hsC2 (mkMsg "x" 0)).2 (fun x hx => by
    rcases List.mem_append.1 hx with h | h
    · rcases List.mem_map.1 h with ⟨n, _, rfl⟩
      exact isExpired_mkMsg_zero (toString n)
    · rw [List.mem_singleton.1 h]
      exact isExpired_mkMsg_zero "x")

theorem isFresh_and_not_isExpired (now : Int) (m : Msg) :
    (isFresh now m && !(isExpired now m)) = isFresh now m := by
  cases h : m.timestamp with
  | none => simp [isFresh, isExpired, h]
  | some ts =>
    by_cases hle : now - ts ≤ MESSAGE_TTL_MS
    · have hng : ¬ (now - ts > MESSAGE_TTL_MS) := by omega
      simp [isFresh, isExpired, h, hle, hng]
    · simp [isFresh, isExpired, h, hle]

/-- C3: read-time TTL filtering. For a history whose message ids are unique
(the Message History invariant), the recent-messages snapshot handed to a
newly logged-in connection is exactly the stored messages at most 24h old,
in insertion order, independent of when the periodic sweep last ran. -/
theorem C3_snapshot_read_time_filter (now : Int) (hs : List Msg)
    (h : (hs.map Msg.id).Nodup) :
    (loginSnapshot now hs).2.2 = hs.filter (isFresh now) := by
  have hpr : (pruneExpiredMessages now hs).1
      = hs.filter (fun m => !(isExpired now m)) := by
    simpa [pruneExpiredMessages] using foldl_removeFirstById_filter (isExpired now) hs h
  show ((pruneExpiredMessages now hs).1).filter (isFresh now) = hs.filter (isFresh now)
  rw [hpr, List.filter_filter]
  exact List.filter_congr (fun m _ => isFresh_and_not_isExpired now m)

/-- Witness for C3 with one fresh and one expired stored message and no
sweep in between: the snapshot is the fresh messages only. -/
theorem C3_snapshot_read_time_filter_witness :
    (loginSnapshot 100000000 [mkMsg "a" 99000000, mkMsg "b" 0]).2.2
      = [mkMsg "a" 99000000, mkMsg "b" 0].filter (isFresh 100000000) :=
  C3_snapshot_read_time_filter 100000000 [mkMsg "a" 99000000, mkMsg "b" 0]
    (by simp [mkMsg])

/-- users.splice(users.indexOf(u), 1): remove the first occurrence of u. -/
def eraseFirst (u : String) : List String → List String
  | [] => []
  | x :: xs => if x = u then xs else x :: eraseFirst u xs

/-- The add pre-pass of updateMessageReactions (src/server.js lines
138-144): walk every symbol entry, remove the first occurrence of the
username from its user list, and delete the entry when the list empties. -/
def removeUserEverywhere (u : String) (r : Reactions) : Reactions :=
  match r with
  | [] => []
  | e :: rest =>
    if u ∈ e.2 then
      let us := eraseFirst u e.2
      if us.isEmpty then removeUserEverywhere u rest
      else (e.1, us) :: removeUserEverywhere u rest
    else e :: removeUserEverywhere u rest

/-- Key presence in the reactions object: !!message.reactions[reaction]
(an array, even empty, is truthy; only an absent key is falsy). -/
def hasSymbol (r : Reactions) (s : String) : Bool :=
  r.any (fun e => e.1 = s)

/-- The insertion step of the add branch (src/server.js line 146): access
the entry of this reaction symbol (a JS object holds each key once) and
push the username unless already included. -/
def pushUserAt (reaction username : String) (r : Reactions) : Reactions :=
  match r with
  | [] => []
  | e :: rest =>
    if e.1 = reaction then
      (if username ∈ e.2 then e else (e.1, e.2 ++ [username])) :: rest
    else e :: pushUserAt reaction username rest

/-- The add branch of updateMessageReactions (src/server.js lines 137-146):
remove the user from every symbol, create the target symbol entry if
absent, then insert the user into it. -/
def addReaction (reaction username : String) (r : Reactions) : Reactions :=
  let r1 := removeUserEverywhere username r
  let r2 := if hasSymbol r1 reaction then r1 else r1 ++ [(reaction, [])]
  pushUserAt reaction username r2

/-- The remove branch of updateMessageReactions (src/server.js lines
147-154): access the entry of this reaction symbol, if present delete the
first occurrence of the username from it, dropping the entry when its list
empties; a symbol or user not held is a silent no-op. -/
def removeReaction (reaction username : String) (r : Reactions) : Reactions :=
  match r with
  | [] => []
  | e :: rest =>
    if e.1 = reaction then
      (if username ∈ e.2 then
        (let us := eraseFirst username e.2
         if us.isEmpty then rest else (e.1, us) :: rest)
       else e :: rest)
    else e :: removeReaction reaction username rest

/-- Dispatch on the action string (src/server.js lines 137, 147): anything
other than add or remove leaves the reactions untouched. -/
def applyAction (action reaction username : String) (r : Reactions) :
    Reactions :=
  if action = "add" then addReaction reaction username r
  else if action = "remove" then removeReaction reaction username r
  else r

/-- recentMessages.find(...) followed by in-place mutation: rewrite the
first element satisfying p with f. -/
def updateFirst (p : Msg → Bool) (f : Msg → Msg) : List Msg → List Msg
  | [] => []
  | m :: rest => if p m then f m :: rest else m :: updateFirst p f rest

/-- updateMessageReactions (src/server.js lines 132-157): false without
mutation when the id is unknown; otherwise mutate the found message and
return true (also for an unrecognised action). The reactions-object
defaulting at line 135 is a no-op as every stored message carries one. -/
def updateMessageReactions (hs : List Msg)
    (messageId reaction username action : String) : Bool × List Msg :=
  if hs.any (fun m => decide (m.id = messageId)) then
    (true, updateFirst (fun m => decide (m.id = messageId))
      (fun m => { m with
        reactions := applyAction action reaction username m.reactions }) hs)
  else (false, hs)

/-- The message-reaction socket handler (src/server.js lines 340-351):
ignore the event when a field is missing, otherwise apply the update and
re-broadcast the payload exactly when the update returned true. -/
def reactionHandler (hs : List Msg)
    (messageId reaction username action : Option String) :
    List Msg × List Emit :=
  if jsFalsy messageId || jsFalsy reaction || jsFalsy username || jsFalsy action then
    (hs, [])
  else
    let mid := messageId.getD ""
    let rea := reaction.getD ""
    let u := username.getD ""
    let a := action.getD ""
    let res := updateMessageReactions hs mid rea u a
    (res.2, if res.1 then [Emit.reactionBroadcast mid rea u a] else [])

/-- One reaction event as fed to updateMessageReactions. -/
structure ReactionOp where
  messageId : String
  reaction : String
  username : String
  action : String
deriving DecidableEq

/-- A sequence of reaction events applied to the history in order. -/
def applyReactionOps (hs : List Msg) : List ReactionOp → List Msg
  | [] => hs
  | op :: rest =>
    applyReactionOps
      (updateMessageReactions hs op.messageId op.reaction op.username op.action).2
      rest

/-- How many symbol entries of a reactions object hold this username. -/
def usersHolding (u : String) (r : Reactions) : Nat :=
  r.countP (fun e => decide (u ∈ e.2))

/-- The one-reaction-per-user invariant of one reactions object: every
username appears in at most one symbol entry. -/
def oneReactionPerUser (r : Reactions) : Prop :=
  ∀ u : String, usersHolding u r ≤ 1

/-- Well-formedness of a reactions object as a JS object of arrays built by
the reaction handlers: unique symbol keys (a JS object cannot repeat a
key), duplicate-free user lists, and one reaction per user. The empty
object has it, and updateMessageReactions preserves it. -/
def wfReactions (r : Reactions) : Prop :=
  (r.map Prod.fst).Nodup ∧ (∀ e ∈ r, e.2.Nodup) ∧ oneReactionPerUser r

theorem wfReactions_nil : wfReactions [] :=
  ⟨List.nodup_nil, fun e he => absurd he (List.not_mem_nil e),
   fun u => by simp [usersHolding]⟩

theorem eraseFirst_subset (u : String) (l : List String) :
    eraseFirst u l ⊆ l := by
  induction l with
  | nil => simp [eraseFirst]
  | cons x xs ih =>
    by_cases h : x = u
    · simp [eraseFirst, h]
    · simp only [eraseFirst, h, if_false]
      exact List.cons_subset_cons x ih

theorem mem_eraseFirst_of_ne (u v : String) (hne : v ≠ u) (l : List String) :
    v ∈ eraseFirst u l ↔ v ∈ l := by
  induction l with
  | nil => simp [eraseFirst]
  | cons x xs ih =>
    by_cases h : x = u
    · subst h
      simp [eraseFirst, List.mem_cons, hne]
    · simp [eraseFirst, h, List.mem_cons, ih]

theorem nodup_eraseFirst (u : String) (l : List String) (h : l.Nodup) :
    (eraseFirst u l).Nodup := by
  induction l with
  | nil => simp [eraseFirst]
  | cons x xs ih =>
    rw [List.nodup_cons] at h
    by_cases hx : x = u
    · simpa [eraseFirst, hx] using h.2
    · rw [show eraseFirst u (x :: xs) = x :: eraseFirst u xs by simp [eraseFirst, hx],
        List.nodup_cons]
      exact ⟨fun hm => h.1 (eraseFirst_subset u xs hm), ih h.2⟩

theorem not_mem_eraseFirst_self (u : String) (l : List String) (h : l.Nodup) :
    u ∉ eraseFirst u l := by
  induction l with
  | nil => simp [eraseFirst]
  | cons x xs ih =>
    rw [List.nodup_cons] at h
    by_cases hx : x = u
    · subst hx
      simpa [eraseFirst] using h.1
    · rw [show eraseFirst u (x :: xs) = x :: eraseFirst u xs by simp [eraseFirst, hx],
        List.mem_cons]
      rintro (he | hm)
      · exact hx he.symm
      · exact ih h.2 hm

theorem removeUserEverywhere_entries (u : String) (r : Reactions)
    (h : ∀ e ∈ r, e.2.Nodup) :
    ∀ e ∈ removeUserEverywhere u r, u ∉ e.2 ∧ e.2.Nodup := by
  induction r with
  | nil => simp [removeUserEverywhere]
  | cons e0 rest ih =>
    have h0 := h e0 (by simp)
    have hr : ∀ e ∈ rest, e.2.Nodup := fun e he => h e (by simp [he])
    by_cases hm : u ∈ e0.2
    · by_cases hemp : (eraseFirst u e0.2).isEmpty
      · simpa [removeUserEverywhere, hm, hemp] using ih hr
      · intro e he
        rw [show removeUserEverywhere u (e0 :: rest)
            = (e0.1, eraseFirst u e0.2) :: removeUserEverywhere u rest by
          simp [removeUserEverywhere, hm, hemp]] at he
        rcases List.mem_cons.1 he with rfl | he2
        · exact ⟨not_mem_eraseFirst_self u e0.2 h0, nodup_eraseFirst u e0.2 h0⟩
        · exact ih hr e he2
    · intro e he
      rw [show removeUserEverywhere u (e0 :: rest)
          = e0 :: removeUserEverywhere u rest by simp [removeUserEverywhere, hm]] at he
      rcases List.mem_cons.1 he with rfl | he2
      · exact ⟨hm, h0⟩
      · exact ih hr e he2

theorem usersHolding_removeUserEverywhere_self (u : String) (r : Reactions)
    (h : ∀ e ∈ r, e.2.Nodup) :
    usersHolding u (removeUserEverywhere u r) = 0 := by
  unfold usersHolding
  rw [List.countP_eq_zero]
  intro e he
  simpa using (removeUserEverywhere_entries u r h e he).1

theorem usersHolding_removeUserEverywhere_le (u v : String) (hne : v ≠ u)
    (r : Reactions) :
    usersHolding v (removeUserEverywhere u r) ≤ usersHolding v r := by
  induction r with
  | nil => simp [removeUserEverywhere]
  | cons e0 rest ih =>
    by_cases hm : u ∈ e0.2
    · by_cases hemp : (eraseFirst u e0.2).isEmpty
      · calc usersHolding v (removeUserEverywhere u (e0 :: rest))
            = usersHolding v (removeUserEverywhere u rest) := by
              simp [removeUserEverywhere, hm, hemp]
          _ ≤ usersHolding v rest := ih
          _ ≤ usersHolding v (e0 :: rest) := by
              unfold usersHolding
              simp only [List.countP_cons]
              omega
      · have he : removeUserEverywhere u (e0 :: rest)
            = (e0.1, eraseFirst u e0.2) :: removeUserEverywhere u rest := by
          simp [removeUserEverywhere, hm, hemp]
        rw [he]
        unfold usersHolding
        simp only [List.countP_cons]
        have hmm : (decide (v ∈ eraseFirst u e0.2)) = (decide (v ∈ e0.2)) := by
          simp [mem_eraseFirst_of_ne u v hne]
        rw [hmm]
        have := ih
        unfold usersHolding at this
        omega
    · have he : removeUserEverywhere u (e0 :: rest)
          = e0 :: removeUserEverywhere u rest := by
        simp [removeUserEverywhere, hm]
      rw [he]
      unfold usersHolding
      simp only [List.countP_cons]
      have := ih
      unfold usersHolding at this
      omega

theorem keys_removeUserEverywhere_sublist (u : String) (r : Reactions) :
    ((removeUserEverywhere u r).map Prod.fst).Sublist (r.map Prod.fst) := by
  induction r with
  | nil => simp [removeUserEverywhere]
  | cons e0 rest ih =>
    by_cases hm : u ∈ e0.2
    · by_cases hemp : (eraseFirst u e0.2).isEmpty
      · rw [show removeUserEverywhere u (e0 :: rest) = removeUserEverywhere u rest by
          simp [removeUserEverywhere, hm, hemp]]
        exact ih.trans (List.sublist_cons_self e0.1 (rest.map Prod.fst))
      · rw [show removeUserEverywhere u (e0 :: rest)
            = (e0.1, eraseFirst u e0.2) :: removeUserEverywhere u rest by
          simp [removeUserEverywhere, hm, hemp], List.map_cons, List.map_cons]
        exact ih.cons₂ e0.1
    · rw [show removeUserEverywhere u (e0 :: rest)
          = e0 :: removeUserEverywhere u rest by simp [removeUserEverywhere, hm],
        List.map_cons, List.map_cons]
      exact ih.cons₂ e0.1

theorem nodup_append_singleton {α : Type} (a : α) (l : List α)
    (h1 : l.Nodup) (h2 : a ∉ l) : (l ++ [a]).Nodup := by
  induction l with
  | nil => simp
  | cons x xs ih =>
    rw [List.nodup_cons] at h1
    rw [List.cons_append, List.nodup_cons]
    refine ⟨?_, ih h1.2 (fun hm => h2 (List.mem_cons_of_mem x hm))⟩
    intro hm
    rcases List.mem_append.1 hm with h | h
    · exact h1.1 h
    · exact h2 (by simp [List.mem_singleton.1 h])

theorem countP_key_le_one (s : String) (r : Reactions)
    (h : (r.map Prod.fst).Nodup) :
    r.countP (fun e => decide (e.1 = s)) ≤ 1 := by
  induction r with
  | nil => simp
  | cons e rest ih =>
    rw [List.map_cons, List.nodup_cons] at h
    rw [List.countP_cons]
    by_cases hk : e.1 = s
    · have hz : rest.countP (fun e => decide (e.1 = s)) = 0 := by
        rw [List.countP_eq_zero]
        intro x hx
        simp only [decide_eq_true_eq]
        intro hxs
        exact h.1 (by
          rw [hk, ← hxs]
          exact List.mem_map_of_mem Prod.fst hx)
      simp [hk, hz]
    · have hz : (decide (e.1 = s)) = false := by simp [hk]
      simpa [hz] using ih h.2

theorem keys_pushUserAt (s u : String) (r : Reactions) :
    (pushUserAt s u r).map Prod.fst = r.map Prod.fst := by
  induction r with
  | nil => simp [pushUserAt]
  | cons e rest ih =>
    by_cases hk : e.1 = s
    · by_cases hm : u ∈ e.2 <;> simp [pushUserAt, hk, hm]
    · simp [pushUserAt, hk, ih]

theorem pushUserAt_lists_nodup (s u : String) (r : Reactions)
    (h : ∀ e ∈ r, e.2.Nodup ∧ u ∉ e.2) :
    ∀ e ∈ pushUserAt s u r, e.2.Nodup := by
  induction r with
  | nil => simp [pushUserAt]
  | cons e0 rest ih =>
    have h0 := h e0 (by simp)
    have hr : ∀ e ∈ rest, e.2.Nodup ∧ u ∉ e.2 := fun e he => h e (by simp [he])
    intro e he
    by_cases hk : e0.1 = s
    · rw [show pushUserAt s u (e0 :: rest)
          = (if u ∈ e0.2 then e0 else (e0.1, e0.2 ++ [u])) :: rest by
        simp [pushUserAt, hk]] at he
      rcases List.mem_cons.1 he with rfl | he2
      · by_cases hm : u ∈ e0.2
        · simpa [hm] using h0.1
        · simpa [hm] using nodup_append_singleton u e0.2 h0.1 h0.2
      · exact (hr e he2).1
    · rw [show pushUserAt s u (e0 :: rest) = e0 :: pushUserAt s u rest by
        simp [pushUserAt, hk]] at he
      rcases List.mem_cons.1 he with rfl | he2
      · exact h0.1
      · exact ih hr e he2

theorem usersHolding_pushUserAt_self (s u : String) (r : Reactions)
    (h : ∀ e ∈ r, u ∉ e.2) :
    usersHolding u (pushUserAt s u r) ≤ 1 := by
  induction r with
  | nil => simp [pushUserAt, usersHolding]
  | cons e0 rest ih =>
    have h0 := h e0 (by simp)
    have hr : ∀ e ∈ rest, u ∉ e.2 := fun e he => h e (by simp [he])
    by_cases hk : e0.1 = s
    · have hz : rest.countP (fun e => decide (u ∈ e.2)) = 0 := by
        rw [List.countP_eq_zero]
        intro x hx
        simpa using hr x hx
      rw [show pushUserAt s u (e0 :: rest)
          = (if u ∈ e0.2 then e0 else (e0.1, e0.2 ++ [u])) :: rest by
        simp [pushUserAt, hk]]
      unfold usersHolding
      rw [List.countP_cons]
      simp [h0, hz]
    · rw [show pushUserAt s u (e0 :: rest) = e0 :: pushUserAt s u rest by
        simp [pushUserAt, hk]]
      unfold usersHolding
      rw [List.countP_cons]
      have hz : (decide (u ∈ e0.2)) = false := by simp [h0]
      rw [hz]
      have := ih hr
      unfold usersHolding at this
      simpa using this

theorem usersHolding_pushUserAt_ne (s u v : String) (hne : v ≠ u)
    (r : Reactions) :
    usersHolding v (pushUserAt s u r) = usersHolding v r := by
  induction r with
  | nil => simp [pushUserAt]
  | cons e0 rest ih =>
    by_cases hk : e0.1 = s
    · rw [show pushUserAt s u (e0 :: rest)
          = (if u ∈ e0.2 then e0 else (e0.1, e0.2 ++ [u])) :: rest by
        simp [pushUserAt, hk]]
      unfold usersHolding
      rw [List.countP_cons, List.countP_cons]
      by_cases hm : u ∈ e0.2
      · simp [hm]
      · simp [hm, List.mem_append, hne]
    · rw [show pushUserAt s u (e0 :: rest) = e0 :: pushUserAt s u rest by
        simp [pushUserAt, hk]]
      unfold usersHolding
      rw [List.countP_cons, List.countP_cons]
      have := ih
      unfold usersHolding at this
      omega

theorem pushUserAt_spec_mem (s u : String) (r : Reactions)
    (hk : hasSymbol r s = true) (h : ∀ e ∈ r, u ∉ e.2) :
    ∃ e ∈ pushUserAt s u r, e.1 = s ∧ u ∈ e.2 := by
  induction r with
  | nil => simp [hasSymbol] at hk
  | cons e0 rest ih =>
    have h0 := h e0 (by simp)
    have hr : ∀ e ∈ rest, u ∉ e.2 := fun e he => h e (by simp [he])
    by_cases hke : e0.1 = s
    · refine ⟨(e0.1, e0.2 ++ [u]), ?_, hke, by simp⟩
      rw [show pushUserAt s u (e0 :: rest)
          = (if u ∈ e0.2 then e0 else (e0.1, e0.2 ++ [u])) :: rest by
        simp [pushUserAt, hke]]
      simp [h0]
    · have hk2 : hasSymbol rest s = true := by
        unfold hasSymbol at hk ⊢
        simpa [hke] using hk
      rcases ih hk2 hr with ⟨e, he, hes, heu⟩
      refine ⟨e, ?_, hes, heu⟩
      rw [show pushUserAt s u (e0 :: rest) = e0 :: pushUserAt s u rest by
        simp [pushUserAt, hke]]
      exact List.mem_cons_of_mem e0 he

theorem pushUserAt_mem_ne (s u : String) (r : Reactions) :
    ∀ e ∈ pushUserAt s u r, e.1 ≠ s → e ∈ r := by
  induction r with
  | nil => simp [pushUserAt]
  | cons e0 rest ih =>
    intro e he hes
    by_cases hk : e0.1 = s
    · rw [show pushUserAt s u (e0 :: rest)
          = (if u ∈ e0.2 then e0 else (e0.1, e0.2 ++ [u])) :: rest by
        simp [pushUserAt, hk]] at he
      rcases List.mem_cons.1 he with rfl | he2
      · exact absurd hk (by by_cases hm : u ∈ e0.2 <;> simpa [hm] using hes)
      · exact List.mem_cons_of_mem e0 he2
    · rw [show pushUserAt s u (e0 :: rest) = e0 :: pushUserAt s u rest by
        simp [pushUserAt, hk]] at he
      rcases List.mem_cons.1 he with rfl | he2
      · exact List.mem_cons_self e rest
      · exact List.mem_cons_of_mem e0 (ih e he2 hes)

theorem keys_removeReaction_sublist (s u : String) (r : Reactions) :
    ((removeReaction s u r).map Prod.fst).Sublist (r.map Prod.fst) := by
  induction r with
  | nil => simp [removeReaction]
  | cons e0 rest ih =>
    by_cases hk : e0.1 = s
    · by_cases hm : u ∈ e0.2
      · by_cases hemp : (eraseFirst u e0.2).isEmpty
        · rw [show removeReaction s u (e0 :: rest) = rest by
            simp [removeReaction, hk, hm, hemp]]
          exact (List.Sublist.refl _).trans
            (List.sublist_cons_self e0.1 (rest.map Prod.fst))
        · rw [show removeReaction s u (e0 :: rest)
              = (e0.1, eraseFirst u e0.2) :: rest by
            simp [removeReaction, hk, hm, hemp]]
          simp
      · rw [show removeReaction s u (e0 :: rest) = e0 :: rest by
          simp [removeReaction, hk, hm]]
    · rw [show removeReaction s u (e0 :: rest)
          = e0 :: removeReaction s u rest by simp [removeReaction, hk],
        List.map_cons, List.map_cons]
      exact ih.cons₂ e0.1

theorem removeReaction_lists_nodup (s u : String) (r : Reactions)
    (h : ∀ e ∈ r, e.2.Nodup) :
    ∀ e ∈ removeReaction s u r, e.2.Nodup := by
  induction r with
  | nil => simp [removeReaction]
  | cons e0 rest ih =>
    have h0 := h e0 (by simp)
    have hr : ∀ e ∈ rest, e.2.Nodup := fun e he => h e (by simp [he])
    intro e he
    by_cases hk : e0.1 = s
    · by_cases hm : u ∈ e0.2
      · by_cases hemp : (eraseFirst u e0.2).isEmpty
        · rw [show removeReaction s u (e0 :: rest) = rest by
            simp [removeReaction, hk, hm, hemp]] at he
          exact hr e he
        · rw [show removeReaction s u (e0 :: rest)
              = (e0.1, eraseFirst u e0.2) :: rest by
            simp [removeReaction, hk, hm, hemp]] at he
          rcases List.mem_cons.1 he with rfl | he2
          · exact nodup_eraseFirst u e0.2 h0
          · exact hr e he2
      · rw [show removeReaction s u (e0 :: rest) = e0 :: rest by
          simp [removeReaction, hk, hm]] at he
        rcases List.mem_cons.1 he with rfl | he2
        · exact h0
        · exact hr e he2
    · rw [show removeReaction s u (e0 :: rest)
          = e0 :: removeReaction s u rest by simp [removeReaction, hk]] at he
      rcases List.mem_cons.1 he with rfl | he2
      · exact h0
      · exact ih hr e he2

theorem usersHolding_removeReaction_le (s u v : String) (r : Reactions) :
    usersHolding v (removeReaction s u r) ≤ usersHolding v r := by
  induction r with
  | nil => simp [removeReaction]
  | cons e0 rest ih =>
    by_cases hk : e0.1 = s
    · by_cases hm : u ∈ e0.2
      · by_cases hemp : (eraseFirst u e0.2).isEmpty
        · rw [show removeReaction s u (e0 :: rest) = rest by
            simp [removeReaction, hk, hm, hemp]]
          unfold usersHolding
          rw [List.countP_cons]
          omega
        · rw [show removeReaction s u (e0 :: rest)
              = (e0.1, eraseFirst u e0.2) :: rest by
            simp [removeReaction, hk, hm, hemp]]
          unfold usersHolding
          rw [List.countP_cons, List.countP_cons]
          dsimp only
          have hle : (if decide (v ∈ eraseFirst u e0.2) = true then 1 else 0)
              ≤ (if decide (v ∈ e0.2) = true then 1 else 0) := by
            by_cases hv : v ∈ eraseFirst u e0.2
            · have : v ∈ e0.2 := eraseFirst_subset u e0.2 hv
              simp [hv, this]
            · simp [hv]
          omega
      · rw [show removeReaction s u (e0 :: rest) = e0 :: rest by
          simp [removeReaction, hk, hm]]
    · rw [show removeReaction s u (e0 :: rest)
          = e0 :: removeReaction s u rest by simp [removeReaction, hk]]
      unfold usersHolding
      rw [List.countP_cons, List.countP_cons]
      have := ih
      unfold usersHolding at this
      omega

theorem hasSymbol_false_not_key (r : Reactions) (s : String)
    (h : hasSymbol r s = false) : s ∉ r.map Prod.fst := by
  intro hm
  rcases List.mem_map.1 hm with ⟨e, he, heq⟩
  have : hasSymbol r s = true := by
    unfold hasSymbol
    rw [List.any_eq_true]
    exact ⟨e, he, by simp [heq]⟩
  simp [this] at h

theorem wfReactions_addReaction (s u : String) (r : Reactions)
    (h : wfReactions r) : wfReactions (addReaction s u r) := by
  obtain ⟨hkeys, hlists, hone⟩ := h
  have hent1 := removeUserEverywhere_entries u r hlists
  have hk1 : ((removeUserEverywhere u r).map Prod.fst).Nodup :=
    List.Nodup.sublist (keys_removeUserEverywhere_sublist u r) hkeys
  by_cases hhs : hasSymbol (removeUserEverywhere u r) s
  · have hrw : addReaction s u r
        = pushUserAt s u (removeUserEverywhere u r) := by
      simp [addReaction, hhs]
    rw [hrw]
    refine ⟨?_, ?_, ?_⟩
    · rw [keys_pushUserAt]
      exact hk1
    · exact pushUserAt_lists_nodup s u _
        (fun e he => ⟨(hent1 e he).2, (hent1 e he).1⟩)
    · intro v
      by_cases hv : v = u
      · subst hv
        exact usersHolding_pushUserAt_self s v _ (fun e he => (hent1 e he).1)
      · rw [usersHolding_pushUserAt_ne s u v hv]
        exact (usersHolding_removeUserEverywhere_le u v hv r).trans (hone v)
  · have hrw : addReaction s u r
        = pushUserAt s u (removeUserEverywhere u r ++ [(s, [])]) := by
      simp [addReaction, hhs]
    rw [hrw]
    have hent2 : ∀ e ∈ removeUserEverywhere u r ++ [(s, [])],
        u ∉ e.2 ∧ e.2.Nodup := by
      intro e he
      rcases List.mem_append.1 he with h2 | h2
      · exact hent1 e h2
      · rw [List.mem_singleton.1 h2]
        simp
    refine ⟨?_, ?_, ?_⟩
    · rw [keys_pushUserAt, List.map_append]
      exact nodup_append_singleton s _ hk1 (hasSymbol_false_not_key _ s
        (Bool.eq_false_iff.mpr hhs))
    · exact pushUserAt_lists_nodup s u _
        (fun e he => ⟨(hent2 e he).2, (hent2 e he).1⟩)
    · intro v
      by_cases hv : v = u
      · subst hv
        exact usersHolding_pushUserAt_self s v _ (fun e he => (hent2 e he).1)
      · rw [usersHolding_pushUserAt_ne s u v hv]
        have happ : usersHolding v (removeUserEverywhere u r ++ [(s, [])])
            = usersHolding v (removeUserEverywhere u r) := by
          unfold usersHolding
          rw [List.countP_append]
          simp
        rw [happ]
        exact (usersHolding_removeUserEverywhere_le u v hv r).trans (hone v)

theorem wfReactions_removeReaction (s u : String) (r : Reactions)
    (h : wfReactions r) : wfReactions (removeReaction s u r) := by
  obtain ⟨hkeys, hlists, hone⟩ := h
  refine ⟨?_, ?_, ?_⟩
  · exact List.Nodup.sublist (keys_removeReaction_sublist s u r) hkeys
  · exact removeReaction_lists_nodup s u r hlists
  · intro v
    exact (usersHolding_removeReaction_le s u v r).trans (hone v)

theorem wfReactions_applyAction (a s u : String) (r : Reactions)
    (h : wfReactions r) : wfReactions (applyAction a s u r) := by
  unfold applyAction
  by_cases ha : a = "add"
  · simpa [ha] using wfReactions_addReaction s u r h
  · by_cases hr : a = "remove"
    · simpa [ha, hr] using wfReactions_removeReaction s u r h
    · simpa [ha, hr] using h

theorem addReaction_user_exactly (s u : String) (r : Reactions)
    (h : ∀ e ∈ r, e.2.Nodup) :
    (∃ e ∈ addReaction s u r, e.1 = s ∧ u ∈ e.2) ∧
    (∀ e ∈ addReaction s u r, e.1 ≠ s → u ∉ e.2) := by
  have hent1 := removeUserEverywhere_entries u r h
  by_cases hhs : hasSymbol (removeUserEverywhere u r) s
  · rw [show addReaction s u r = pushUserAt s u (removeUserEverywhere u r) by
      simp [addReaction, hhs]]
    constructor
    · exact pushUserAt_spec_mem s u _ hhs (fun e he => (hent1 e he).1)
    · intro e he hes
      exact (hent1 e (pushUserAt_mem_ne s u _ e he hes)).1
  · rw [show addReaction s u r
        = pushUserAt s u (removeUserEverywhere u r ++ [(s, [])]) by
      simp [addReaction, hhs]]
    have hent2 : ∀ e ∈ removeUserEverywhere u r ++ [(s, [])], u ∉ e.2 := by
      intro e he
      rcases List.mem_append.1 he with h2 | h2
      · exact (hent1 e h2).1
      · rw [List.mem_singleton.1 h2]
        simp
    have hk2 : hasSymbol (removeUserEverywhere u r ++ [(s, [])]) s = true := by
      unfold hasSymbol
      rw [List.any_eq_true]
      exact ⟨(s, []), by simp, by simp⟩
    constructor
    · exact pushUserAt_spec_mem s u _ hk2 hent2
    · intro e he hes
      have hmem := pushUserAt_mem_ne s u _ e he hes
      rcases List.mem_append.1 hmem with h2 | h2
      · exact (hent1 e h2).1
      · exact absurd (by simpa using congrArg Prod.fst (List.mem_singleton.1 h2)) hes

theorem updateFirst_mem (p : Msg → Bool) (f : Msg → Msg) :
    ∀ l : List Msg, ∀ x ∈ updateFirst p f l, x ∈ l ∨ ∃ y ∈ l, x = f y := by
  intro l
  induction l with
  | nil => simp [updateFirst]
  | cons m rest ih =>
    intro x hx
    by_cases hp : p m
    · rw [show updateFirst p f (m :: rest) = f m :: rest by
        simp [updateFirst, hp]] at hx
      rcases List.mem_cons.1 hx with rfl | hx2
      · exact Or.inr ⟨m, by simp, rfl⟩
      · exact Or.inl (List.mem_cons_of_mem m hx2)
    · rw [show updateFirst p f (m :: rest) = m :: updateFirst p f rest by
        simp [updateFirst, hp]] at hx
      rcases List.mem_cons.1 hx with rfl | hx2
      · exact Or.inl (List.mem_cons_self x rest)
      · rcases ih x hx2 with h2 | ⟨y, hy, rfl⟩
        · exact Or.inl (List.mem_cons_of_mem m h2)
        · exact Or.inr ⟨y, List.mem_cons_of_mem m hy, rfl⟩

theorem updateFirst_id (p : Msg → Bool) (f : Msg → Msg)
    (hf : ∀ x, f x = x) : ∀ l : List Msg, updateFirst p f l = l := by
  intro l
  induction l with
  | nil => rfl
  | cons m rest ih =>
    by_cases hp : p m
    · simp [updateFirst, hp, hf m]
    · simp [updateFirst, hp, ih]

theorem updateMessageReactions_wf (hs : List Msg) (mid s u a : String)
    (h : ∀ m ∈ hs, wfReactions m.reactions) :
    ∀ m ∈ (updateMessageReactions hs mid s u a).2, wfReactions m.reactions := by
  unfold updateMessageReactions
  by_cases hany : hs.any (fun m => decide (m.id = mid)) = true
  · simp only [hany, if_true]
    intro m hm
    rcases updateFirst_mem _ _ hs m hm with hmem | ⟨y, hy, rfl⟩
    · exact h m hmem
    · exact wfReactions_applyAction a s u _ (h y hy)
  · simp only [hany, if_false]
    exact h

theorem applyReactionOps_wf (ops : List ReactionOp) :
    ∀ hs : List Msg, (∀ m ∈ hs, wfReactions m.reactions) →
      ∀ m ∈ applyReactionOps hs ops, wfReactions m.reactions := by
  induction ops with
  | nil =>
    intro hs h
    simpa [applyReactionOps] using h
  | cons op rest ih =>
    intro hs h
    exact ih _ (updateMessageReactions_wf hs op.messageId op.reaction
      op.username op.action h)

/-- C1: one reaction per user per message. Starting from any history whose
reaction objects are well formed (unique symbol keys, duplicate-free user
lists, at most one symbol per user — all true of the empty objects messages
are created with), any sequence of updateMessageReactions calls keeps every
username in at most one reaction-symbol entry of every message; and the
add branch puts the user in the target symbol and into no other symbol,
removing them from a previously held symbol first. -/
theorem C1_one_reaction_per_user (hs : List Msg) (ops : List ReactionOp)
    (hwf : ∀ m ∈ hs, wfReactions m.reactions) :
    (∀ m ∈ applyReactionOps hs ops, oneReactionPerUser m.reactions) ∧
    (∀ (r : Reactions) (s u : String), (∀ e ∈ r, e.2.Nodup) →
      (∃ e ∈ addReaction s u r, e.1 = s ∧ u ∈ e.2) ∧
      (∀ e ∈ addReaction s u r, e.1 ≠ s → u ∉ e.2)) := by
  constructor
  · intro m hm
    exact (applyReactionOps_wf ops hs hwf m hm).2.2
  · intro r s u h
    exact addReaction_user_exactly s u r h

/-- The two reaction events of the C1 witness: bob adds like, then heart,
on the same message. -/
def opsC1 : List ReactionOp :=
  [⟨"m1", "like", "bob", "add"⟩, ⟨"m1", "heart", "bob", "add"⟩]

/-- Witness for C1: after bob reacts like then heart on one message, bob
holds at most one reaction symbol there. -/
theorem C1_one_reaction_per_user_witness :
    usersHolding "bob"
      (((applyReactionOps [mkMsg "m1" 0] opsC1).headD (mkMsg "" 0)).reactions)
      ≤ 1 :=
  (C1_one_reaction_per_user [mkMsg "m1" 0] opsC1
      (fun m hm => by
        rw [List.mem_singleton.1 hm]
        exact wfReactions_nil)).1
    ((applyReactionOps [mkMsg "m1" 0] opsC1).headD (mkMsg "" 0))
    (by decide) "bob"

/-- C8: a reaction to a messageId not present in the history is an atomic
no-op: updateMessageReactions returns false and the history is unchanged,
and the socket handler emits nothing at all (in particular no
message-reaction broadcast). -/
theorem C8_unknown_message_reaction_noop (hs : List Msg)
    (mid reaction username action : String)
    (h : ∀ m ∈ hs, ¬ m.id = mid) :
    updateMessageReactions hs mid reaction username action = (false, hs) ∧
    reactionHandler hs (some mid) (some reaction) (some username) (some action)
      = (hs, []) := by
  have hany : (hs.any (fun m => decide (m.id = mid))) = false := by
    rw [List.any_eq_false]
    intro m hm
    simpa using h m hm
  have hupd : updateMessageReactions hs mid reaction username action
      = (false, hs) := by
    simp [updateMessageReactions, hany]
  refine ⟨hupd, ?_⟩
  unfold reactionHandler
  by_cases hf : (jsFalsy (some mid) || jsFalsy (some reaction)
      || jsFalsy (some username) || jsFalsy (some action)) = true
  · simp [hf]
  · simp only [Bool.not_eq_true] at hf
    simp [hf, hupd]

/-- Witness for C8: a reaction to the absent id zz on a one-message history
returns false, mutates nothing and broadcasts nothing. -/
theorem C8_unknown_message_reaction_noop_witness :
    updateMessageReactions [mkMsg "m1" 0] "zz" "like" "bob" "add"
      = (false, [mkMsg "m1" 0]) ∧
    reactionHandler [mkMsg "m1" 0] (some "zz") (some "like") (some "bob")
      (some "add") = ([mkMsg "m1" 0], []) :=
  C8_unknown_message_reaction_noop [mkMsg "m1" 0] "zz" "like" "bob" "add"
    (by decide)

/-- C10: an unrecognised reaction action on a message that exists is
accepted unchanged: updateMessageReactions falls through both branches,
returns true without touching any reactions object, and the handler
re-broadcasts the payload, unknown action included, to all clients. -/
theorem C10_unknown_action_broadcast (hs : List Msg)
    (mid reaction username action : String)
    (hfound : hs.any (fun m => decide (m.id = mid)) = true)
    (hadd : action ≠ "add") (hrem : action ≠ "remove")
    (hm : mid ≠ "") (hr : reaction ≠ "") (hu : username ≠ "") (ha : action ≠ "") :
    updateMessageReactions hs mid reaction username action = (true, hs) ∧
    reactionHandler hs (some mid) (some reaction) (some username) (some action)
      = (hs, [Emit.reactionBroadcast mid reaction username action]) := by
  have hfix : ∀ x : Msg,
      { x with reactions := applyAction action reaction username x.reactions }
        = x := by
    intro x
    simp [applyAction, hadd, hrem]
  have hupd : updateMessageReactions hs mid reaction username action
      = (true, hs) := by
    simp [updateMessageReactions, hfound, updateFirst_id _ _ hfix hs]
  refine ⟨hupd, ?_⟩
  unfold reactionHandler
  have hf : (jsFalsy (some mid) || jsFalsy (some reaction)
      || jsFalsy (some username) || jsFalsy (some action)) = false := by
    simp [jsFalsy, hm, hr, hu, ha]
  simp [hf, hupd]

/-- Witness for C10: the unknown action toggle on an existing message is
passed through and re-broadcast while the stored reactions stay empty. -/
theorem C10_unknown_action_broadcast_witness :
    updateMessageReactions [mkMsg "m1" 0] "m1" "like" "bob" "toggle"
      = (true, [mkMsg "m1" 0]) ∧
    reactionHandler [mkMsg "m1" 0] (some "m1") (some "like") (some "bob")
      (some "toggle")
      = ([mkMsg "m1" 0], [Emit.reactionBroadcast "m1" "like" "bob" "toggle"]) :=
  C10_unknown_action_broadcast [mkMsg "m1" 0] "m1" "like" "bob" "toggle"
    (by decide) (by decide) (by decide) (by decide) (by decide) (by decide)
    (by decide)

/-- Drop leading whitespace characters. -/
def dropLeadingSpace : List Char → List Char
  | [] => []
  | c :: cs => if c.isWhitespace then dropLeadingSpace cs else c :: cs

/-- The JavaScript String.prototype.trim: strip whitespace from both ends
(structurally, so that concrete inputs evaluate). -/
def jsTrim (s : String) : String :=
  String.mk ((dropLeadingSpace (dropLeadingSpace s.toList.reverse).reverse))

/-- sanitizeUsername (src/server.js lines 92-96): trim, strip the five
special characters, cut to 20, and turn an empty result into null.
The two stripped quote characters are spelled via their code points to
keep this source free of quote literals. -/
def sanitizeUsername (username : String) : Option String :=
  let cleaned := (((jsTrim username).toList.filter
    (fun c => !(c == '<' || c == '>' || c == Char.ofNat 34
      || c == Char.ofNat 39 || c == '&'))).take 20)
  if cleaned.isEmpty then none else some (String.mk cleaned)

/-- connectedUsers.set(socket.id, userData): replace in place or append. -/
def setSession (conns : List Session) (s : Session) : List Session :=
  match conns with
  | [] => [s]
  | c :: rest =>
    if c.socketId = s.socketId then s :: rest else c :: setSession rest s

/-- The user-joined handler of part_001 (lines 223-242): sanitize the
requested name or fall back to a random UserN name, suffix it once with a
random number when another live socket already holds it, and register the
session under the resulting name. randDefault and randSuffix stand for the
two Math.random draws; part_001 sessions carry no avatar, recorded here as
the empty string. Returns the new registry and the assigned username. -/
def joinUser (conns : List Session) (sid : String) (requested : Option String)
    (randDefault randSuffix : Nat) : List Session × String :=
  let username :=
    (match requested with
     | none => none
     | some r => sanitizeUsername r).getD ("User" ++ toString randDefault)
  let collision := conns.any
    (fun user => decide (user.username = username ∧ ¬ user.socketId = sid))
  let finalName :=
    if collision then username ++ "_" ++ toString randSuffix else username
  (setSession conns ⟨finalName, sid, ""⟩, finalName)

/-- The reachable state of the C5 failing run: alice joins on s1,
alice_5 joins on s2, then s3 requests alice while the random suffix draw
is 5. -/
def joinSt1 : List Session × String := joinUser [] "s1" (some "alice") 0 0

/-- Second join of the C5 failing run. -/
def joinSt2 : List Session × String := joinUser joinSt1.1 "s2" (some "alice_5") 0 0

/-- Third join of the C5 failing run. -/
def joinSt3 : List Session × String := joinUser joinSt2.1 "s3" (some "alice") 0 5

/-- C5 fails on the code: after the reachable joins alice@s1 and
alice_5@s2, a third connection requesting alice is assigned alice_5 when
the single random suffix draw is 5, so two live sessions hold the same
username — the handler suffixes once and never re-checks uniqueness
(and the login variant of src/server.js lines 224-235 does not rename at
all: its early return after login_error is commented out). -/
theorem C5_username_collision_bug :
    joinSt3.1.map Session.username = ["alice", "alice_5", "alice_5"] ∧
    joinSt3.2 = "alice_5" ∧
    ¬ (joinSt3.1.map Session.username).Nodup := by
  refine ⟨by decide, by decide, by decide⟩

/-- sanitizeMessage (src/server.js lines 87-90): empty for a missing or
non-string body, else trim and cut to the first 500 characters. -/
def sanitizeMessage (message : Option String) : String :=
  match message with
  | none => ""
  | some s => String.mk ((jsTrim s).toList.take 500)

/-- The chat-message socket handler (src/server.js lines 310-337): rate
limit with a connection-local error on rejection, resolve the username
from the session (Unknown when anonymous), sanitize the body, silently
return on an empty result, else store via addMessageToHistory (which may
broadcast a deleted batch) and broadcast the message. msgId stands for the
Date.now()+Math.random() draw. -/
def chatMessageHandler (st : ServerState) (now : Int) (sid : String)
    (body replyTo : Option String) (msgId : String) :
    ServerState × List Emit :=
  let rl := checkRateLimit st.messageLimits sid now
  let st1 : ServerState := { st with messageLimits := rl.2 }
  if rl.1 = false then (st1, [Emit.errorTo sid "Rate limit exceeded"])
  else
    let userData := findSession st.connectedUsers sid
    let username := match userData with
      | some u => u.username
      | none => "Unknown"
    let avatar := match userData with
      | some u => u.avatar
      | none => "😊"
    let messageText := sanitizeMessage body
    if messageText = "" then (st1, [])
    else
      let md : Msg := ⟨msgId, username, messageText, replyTo, avatar, some now, []⟩
      let ah := addMessageToHistory now st1.recentMessages md
      ({ st1 with recentMessages := ah.1 },
        (if ah.2.isEmpty then [] else [Emit.broadcastDeleted ah.2])
          ++ [Emit.broadcastMessage md])

/-- The C9 claim as the spec states it: an inbound chat-message event whose
body is empty after trimming or longer than 500 characters is rejected with
an error event to the sender, appending nothing and broadcasting nothing. -/
def C9_claimStatement : Prop :=
  ∀ (st : ServerState) (now : Int) (sid : String) (body replyTo : Option String)
    (msgId : String),
    (sanitizeMessage body = "" ∨ 500 < (body.getD "").length) →
    ((∃ emsg, Emit.errorTo sid emsg
        ∈ (chatMessageHandler st now sid body replyTo msgId).2) ∧
     (chatMessageHandler st now sid body replyTo msgId).1.recentMessages
        = st.recentMessages ∧
     (∀ md, Emit.broadcastMessage md
        ∉ (chatMessageHandler st now sid body replyTo msgId).2))

/-- The empty server state of the C9 and C6 concrete runs. -/
def ssEmpty : ServerState := ⟨[], [], [], []⟩

/-- A 501-character body. -/
def bigBody : String := String.mk (List.replicate 501 'a')

/-- The first 500 characters of bigBody. -/
def body500 : String := String.mk (List.replicate 500 'a')

theorem sanitizeMessage_length (body : Option String) :
    (sanitizeMessage body).length ≤ 500 := by
  cases body with
  | none => simp [sanitizeMessage]
  | some s =>
    show (String.mk ((jsTrim s).toList.take 500)).length ≤ 500
    have hmk : (String.mk ((jsTrim s).toList.take 500)).length
        = ((jsTrim s).toList.take 500).length := rfl
    rw [hmk]
    exact List.length_take_le 500 (jsTrim s).toList

theorem removeFirstById_append_of_ne (hs : List Msg) (m : Msg) (i : String)
    (h : ¬ i = m.id) :
    removeFirstById (hs ++ [m]) i = removeFirstById hs i ++ [m] := by
  induction hs with
  | nil =>
    have hm : ¬ m.id = i := fun he => h he.symm
    simp [removeFirstById, hm]
  | cons a rest ih =>
    by_cases ha : a.id = i
    · simp [removeFirstById, ha]
    · simp [removeFirstById, ha, ih]

theorem foldl_removeFirstById_append (ids : List String) (m : Msg) :
    (∀ i ∈ ids, ¬ i = m.id) →
    ∀ hs : List Msg,
      List.foldl removeFirstById (hs ++ [m]) ids
        = List.foldl removeFirstById hs ids ++ [m] := by
  induction ids with
  | nil => intro _ hs; rfl
  | cons i rest ih =>
    intro h hs
    rw [List.foldl_cons, removeFirstById_append_of_ne hs m i (h i (by simp)),
      List.foldl_cons]
    exact ih (fun x hx => h x (by simp [hx])) (removeFirstById hs i)

theorem isExpired_now_false (now : Int) (md : Msg) (h : md.timestamp = some now) :
    isExpired now md = false := by
  unfold isExpired
  rw [h]
  show decide (now - now > MESSAGE_TTL_MS) = false
  have h0 : now - now = 0 := by omega
  rw [h0]
  simp [MESSAGE_TTL_MS]

set_option maxRecDepth 100000 in
/-- C9 fails on the code: an empty-after-trim body is dropped silently
with no error event at all, and an oversized body is not rejected but
truncated to 500 characters, stored and broadcast. The second and third
conjuncts evaluate the handler at the two concrete inputs. -/
theorem C9_counterexample :
    ¬ C9_claimStatement ∧
    chatMessageHandler ssEmpty 0 "s1" (some "   ") none "m9"
      = ({ ssEmpty with
            messageLimits := [("s1", ⟨1, RATE_LIMIT_WINDOW⟩)] }, []) ∧
    (chatMessageHandler ssEmpty 0 "s1" (some bigBody) none "m9").2
      = [Emit.broadcastMessage ⟨"m9", "Unknown", body500, none, "😊", some 0, []⟩] := by
  refine ⟨?_, by decide, by decide⟩
  intro h
  obtain ⟨⟨emsg, hmem⟩, -, -⟩ :=
    h ssEmpty 0 "s1" (some "   ") none "m9" (Or.inl (by decide))
  rw [show (chatMessageHandler ssEmpty 0 "s1" (some "   ") none "m9").2 = []
    from by decide] at hmem
  exact absurd hmem (List.not_mem_nil _)

/-- C9 amended: a rate-limited chat message gets a connection-local error
and appends nothing; a body that is empty after trimming is dropped
silently — nothing appended, nothing broadcast, and no error event either;
a nonempty body is never rejected for length: it is stored and broadcast
trimmed and truncated to at most 500 characters (appended as the newest
history entry when its id is fresh). -/
theorem C9_empty_silent_oversized_truncated (st : ServerState) (now : Int)
    (sid : String) (body replyTo : Option String) (msgId : String) :
    ((checkRateLimit st.messageLimits sid now).1 = false →
      (chatMessageHandler st now sid body replyTo msgId).1.recentMessages
          = st.recentMessages ∧
      (chatMessageHandler st now sid body replyTo msgId).2
          = [Emit.errorTo sid "Rate limit exceeded"]) ∧
    ((checkRateLimit st.messageLimits sid now).1 = true →
      sanitizeMessage body = "" →
      (chatMessageHandler st now sid body replyTo msgId).1.recentMessages
          = st.recentMessages ∧
      (chatMessageHandler st now sid body replyTo msgId).2 = []) ∧
    ((checkRateLimit st.messageLimits sid now).1 = true →
      ¬ sanitizeMessage body = "" →
      ∃ md : Msg,
        Emit.broadcastMessage md
            ∈ (chatMessageHandler st now sid body replyTo msgId).2 ∧
        md.message = sanitizeMessage body ∧
        md.message.length ≤ 500 ∧
        md.id = msgId ∧
        (msgId ∉ st.recentMessages.map Msg.id →
          (chatMessageHandler st now sid body replyTo msgId).1.recentMessages.getLast?
            = some md)) := by
  refine ⟨?_, ?_, ?_⟩
  · intro h
    constructor <;> simp [chatMessageHandler, h]
  · intro h1 h2
    constructor <;> simp [chatMessageHandler, h1, h2]
  · intro h1 h2
    refine ⟨⟨msgId,
      (match findSession st.connectedUsers sid with
        | some u => u.username
        | none => "Unknown"),
      sanitizeMessage body, replyTo,
      (match findSession st.connectedUsers sid with
        | some u => u.avatar
        | none => "😊"),
      some now, []⟩, ?_, rfl, sanitizeMessage_length body, rfl, ?_⟩
    · simp [chatMessageHandler, h1, h2]
    · intro hfresh
      have hres : (chatMessageHandler st now sid body replyTo msgId).1.recentMessages
          = (addMessageToHistory now st.recentMessages
              ⟨msgId,
                (match findSession st.connectedUsers sid with
                  | some u => u.username
                  | none => "Unknown"),
                sanitizeMessage body, replyTo,
                (match findSession st.connectedUsers sid with
                  | some u => u.avatar
                  | none => "😊"),
                some now, []⟩).1 := by
        simp [chatMessageHandler, h1, h2]
      rw [hres]
      generalize hmd : (Msg.mk msgId
        (match findSession st.connectedUsers sid with
          | some u => u.username
          | none => "Unknown")
        (sanitizeMessage body) replyTo
        (match findSession st.connectedUsers sid with
          | some u => u.avatar
          | none => "😊")
        (some now) []) = md
      have hmdid : md.id = msgId := by rw [← hmd]
      have hmdts : md.timestamp = some now := by rw [← hmd]
      have hmdexp : isExpired now md = false := isExpired_now_false now md hmdts
      have hids : ∀ i ∈ (((st.recentMessages ++ [md]).filter
          (isExpired now)).map Msg.id), ¬ i = md.id := by
        intro i hi
        rcases List.mem_map.1 hi with ⟨x, hx, rfl⟩
        have hx2 := List.mem_filter.1 hx
        rcases List.mem_append.1 hx2.1 with hxh | hxm
        · intro he
          exact hfresh (by
            rw [← hmdid, ← he]
            exact List.mem_map_of_mem Msg.id hxh)
        · rw [List.mem_singleton.1 hxm] at hx2
          rw [hmdexp] at hx2
          simp at hx2
      have hfold := foldl_removeFirstById_append _ md hids st.recentMessages
      unfold addMessageToHistory pruneExpiredMessages
      simp only [hfold]
      by_cases hlen : (List.foldl removeFirstById st.recentMessages
          (((st.recentMessages ++ [md]).filter (isExpired now)).map Msg.id)
            ++ [md]).length > MAX_MESSAGES
      · rw [if_pos hlen, List.drop_append_of_le_length (by simp [MAX_MESSAGES])]
        exact List.getLast?_concat _
      · rw [if_neg hlen]
        exact List.getLast?_concat _

/-- Lexicographic comparison of char lists, the JS string < relation
(written structurally so concrete inputs evaluate). -/
def charListLt : List Char → List Char → Bool
  | [], [] => false
  | [], _ :: _ => true
  | _ :: _, [] => false
  | a :: as, b :: bs =>
    if a < b then true else if b < a then false else charListLt as bs

/-- The JS string comparison used by Array.prototype.sort. -/
def jsStrLt (a b : String) : Bool := charListLt a.toList b.toList

/-- The smaller of the two usernames under the JS sort. -/
def sortedPairA (u1 u2 : String) : String :=
  if jsStrLt u2 u1 then u2 else u1

/-- The larger of the two usernames under the JS sort. -/
def sortedPairB (u1 u2 : String) : String :=
  if jsStrLt u2 u1 then u1 else u2

/-- The deterministic chat id pc_a_b of a sorted username pair
(src/server.js lines 181-182), independent of invite direction. -/
def chatIdFor (u1 u2 : String) : String :=
  "pc_" ++ sortedPairA u1 u2 ++ "_" ++ sortedPairB u1 u2

/-- getOrCreatePrivateChat (src/server.js lines 180-193): derive the chat
id of the sorted pair and create the chat with those participants and an
empty log if absent. Returns the (possibly extended) registry and the id. -/
def getOrCreatePrivateChat (chats : List (String × Chat))
    (user1 user2 : String) (now : Int) : List (String × Chat) × String :=
  let chatId := chatIdFor user1 user2
  match lookupChat chats chatId with
  | some _ => (chats, chatId)
  | none =>
    (chats ++ [(chatId,
      ⟨chatId, [sortedPairA user1 user2, sortedPairB user1 user2], [], now⟩)],
     chatId)

/-- addPrivateMessageToHistory (src/server.js lines 195-203): no-op when
the chat does not exist; else push the message and shift one message out
when the log exceeds the cap of 100. -/
def addPrivateMessageToHistory (chats : List (String × Chat))
    (chatId : String) (messageData : PrivMsg) : List (String × Chat) :=
  match chats with
  | [] => []
  | p :: rest =>
    if p.1 = chatId then
      (p.1,
        { p.2 with messages :=
            (let ms := p.2.messages ++ [messageData]
             if ms.length > MAX_PRIVATE_MESSAGES then ms.drop 1 else ms) })
        :: rest
    else p :: addPrivateMessageToHistory rest chatId messageData

/-- The private-message socket handler (part_001 lines 452-522, the full
version src/server.js abbreviates at line 438): rate limit, session
lookup, field truthiness, sanitization, then the participant check — the
chat must exist and hold both the sender and toUsername — before the
message is appended and delivered to the recipient (if online) and echoed
to the sender. msgId stands for data.id or the random draw. -/
def privateMessageHandler (st : ServerState) (now : Int) (sid : String)
    (chatId messageText toUsername : Option String) (msgId : String) :
    ServerState × List Emit :=
  let rl := checkRateLimit st.messageLimits sid now
  let st1 : ServerState := { st with messageLimits := rl.2 }
  if rl.1 = false then
    (st1, [Emit.errorTo sid "Rate limit exceeded. Please slow down."])
  else
    match findSession st.connectedUsers sid with
    | none => (st1, [Emit.errorTo sid "User not found. Please refresh."])
    | some userData =>
      if jsFalsy chatId || jsFalsy messageText || jsFalsy toUsername then
        (st1, [Emit.errorTo sid "Invalid private message data"])
      else
        let cid := chatId.getD ""
        let toU := toUsername.getD ""
        let sanitized := sanitizeMessage messageText
        if sanitized = "" then (st1, [Emit.errorTo sid "Invalid message"])
        else
          match lookupChat st.privateChats cid with
          | none => (st1, [Emit.errorTo sid "Invalid chat room"])
          | some chat =>
            if ¬ (userData.username ∈ chat.participants
                ∧ toU ∈ chat.participants) then
              (st1, [Emit.errorTo sid "Invalid chat room"])
            else
              let messageData : PrivMsg :=
                ⟨msgId, userData.username, sanitized, now, [], true⟩
              let chats2 := addPrivateMessageToHistory st1.privateChats cid
                messageData
              let st2 := { st1 with privateChats := chats2 }
              let deliver := match findByUsername st.connectedUsers toU with
                | some target =>
                  [Emit.privateTo target.socketId messageData cid
                    userData.username]
                | none => []
              (st2, deliver
                ++ [Emit.privateTo sid messageData cid userData.username])

/-- The participant-validation condition of the private-message handler:
the sender has a session, the chat exists, and both the sender and the
addressee are participants of that exact chat. -/
def pmChatValid (st : ServerState) (sid : String)
    (chatId toUsername : Option String) : Prop :=
  match findSession st.connectedUsers sid,
      lookupChat st.privateChats (chatId.getD "") with
  | some u, some chat =>
    u.username ∈ chat.participants ∧ (toUsername.getD "") ∈ chat.participants
  | _, _ => False

/-- The C6 claim as the spec states it: when the participant validation
fails, the sender gets an error, the whole state — not just the chat
registry — is unchanged, and nothing is delivered to any connection. -/
def C6_claimStatement : Prop :=
  ∀ (st : ServerState) (now : Int) (sid : String)
    (chatId messageText toUsername : Option String) (msgId : String),
    ¬ pmChatValid st sid chatId toUsername →
    ((privateMessageHandler st now sid chatId messageText toUsername msgId).1
        = st ∧
     (∃ emsg, Emit.errorTo sid emsg
        ∈ (privateMessageHandler st now sid chatId messageText toUsername
            msgId).2) ∧
     (∀ (tid : String) (pm : PrivMsg) (c f : String),
        Emit.privateTo tid pm c f
          ∉ (privateMessageHandler st now sid chatId messageText toUsername
              msgId).2))

/-- The one-session state of the C6 concrete run: alice logged in on s1,
no chats, no rate-limit windows. -/
def stC6 : ServerState := ⟨[⟨"alice", "s1", "a"⟩], [], [], []⟩

/-- C6 fails on the code as stated: a private message into a nonexistent
chat is rejected with an error and nothing is delivered, but the state is
not fully unchanged — the rate limiter consumed a slot for the attempt
(messageLimits gains the window for s1). The last two conjuncts evaluate
the run. -/
theorem C6_counterexample :
    ¬ C6_claimStatement ∧
    (privateMessageHandler stC6 0 "s1" (some "pc_x") (some "hi") (some "bob")
        "p1").2 = [Emit.errorTo "s1" "Invalid chat room"] ∧
    (privateMessageHandler stC6 0 "s1" (some "pc_x") (some "hi") (some "bob")
        "p1").1
      = { stC6 with messageLimits := [("s1", ⟨1, RATE_LIMIT_WINDOW⟩)] } := by
  refine ⟨?_, by decide, by decide⟩
  intro h
  obtain ⟨hstate, -, -⟩ := h stC6 0 "s1" (some "pc_x") (some "hi") (some "bob")
    "p1" (by simp [pmChatValid, lookupChat, findSession, stC6])
  have hcomp : (privateMessageHandler stC6 0 "s1" (some "pc_x") (some "hi")
      (some "bob") "p1").1.messageLimits
        = [("s1", ⟨1, RATE_LIMIT_WINDOW⟩)] := by decide
  rw [hstate] at hcomp
  exact absurd hcomp (by decide)

/-- C6 amended: the handler never touches the presence registry or the
public message history; the chat registry changes and a private-message
delivery happens only when the chat exists and both the sender and the
addressee are its participants; when that validation fails the sender gets
exactly one error event and the chat registry is unchanged — but the
rate-limit window of the connection is still consumed by the attempt. -/
theorem C6_participant_validation (st : ServerState) (now : Int)
    (sid : String) (chatId messageText toUsername : Option String)
    (msgId : String) :
    (privateMessageHandler st now sid chatId messageText toUsername
        msgId).1.connectedUsers = st.connectedUsers ∧
    (privateMessageHandler st now sid chatId messageText toUsername
        msgId).1.recentMessages = st.recentMessages ∧
    ((privateMessageHandler st now sid chatId messageText toUsername
        msgId).1.privateChats ≠ st.privateChats →
      pmChatValid st sid chatId toUsername) ∧
    (∀ (tid : String) (pm : PrivMsg) (c f : String),
      Emit.privateTo tid pm c f
          ∈ (privateMessageHandler st now sid chatId messageText toUsername
              msgId).2 →
      pmChatValid st sid chatId toUsername) ∧
    (¬ pmChatValid st sid chatId toUsername →
      (privateMessageHandler st now sid chatId messageText toUsername
          msgId).1.privateChats = st.privateChats ∧
      ∃ emsg, (privateMessageHandler st now sid chatId messageText toUsername
          msgId).2 = [Emit.errorTo sid emsg]) := by
  by_cases hrl : (checkRateLimit st.messageLimits sid now).1 = false
  · refine ⟨by simp [privateMessageHandler, hrl], by simp [privateMessageHandler, hrl],
      ?_, ?_, ?_⟩
    · intro hne
      exact absurd (by simp [privateMessageHandler, hrl]) hne
    · intro tid pm c f hmem
      simp [privateMessageHandler, hrl] at hmem
    · intro _
      exact ⟨by simp [privateMessageHandler, hrl],
        "Rate limit exceeded. Please slow down.",
        by simp [privateMessageHandler, hrl]⟩
  · rcases hfs : findSession st.connectedUsers sid with - | userData
    · refine ⟨by simp [privateMessageHandler, hrl, hfs],
        by simp [privateMessageHandler, hrl, hfs], ?_, ?_, ?_⟩
      · intro hne
        exact absurd (by simp [privateMessageHandler, hrl, hfs]) hne
      · intro tid pm c f hmem
        simp [privateMessageHandler, hrl, hfs] at hmem
      · intro _
        exact ⟨by simp [privateMessageHandler, hrl, hfs],
          "User not found. Please refresh.",
          by simp [privateMessageHandler, hrl, hfs]⟩
    · by_cases hfal : (jsFalsy chatId || jsFalsy messageText
          || jsFalsy toUsername) = true
      · refine ⟨by simp [privateMessageHandler, hrl, hfs, hfal],
          by simp [privateMessageHandler, hrl, hfs, hfal], ?_, ?_, ?_⟩
        · intro hne
          exact absurd (by simp [privateMessageHandler, hrl, hfs, hfal]) hne
        · intro tid pm c f hmem
          simp [privateMessageHandler, hrl, hfs, hfal] at hmem
        · intro _
          exact ⟨by simp [privateMessageHandler, hrl, hfs, hfal],
            "Invalid private message data",
            by simp [privateMessageHandler, hrl, hfs, hfal]⟩
      · by_cases hsan : sanitizeMessage messageText = ""
        · refine ⟨by simp [privateMessageHandler, hrl, hfs, hfal, hsan],
            by simp [privateMessageHandler, hrl, hfs, hfal, hsan], ?_, ?_, ?_⟩
          · intro hne
            exact absurd (by simp [privateMessageHandler, hrl, hfs, hfal, hsan])
              hne
          · intro tid pm c f hmem
            simp [privateMessageHandler, hrl, hfs, hfal, hsan] at hmem
          · intro _
            exact ⟨by simp [privateMessageHandler, hrl, hfs, hfal, hsan],
              "Invalid message",
              by simp [privateMessageHandler, hrl, hfs, hfal, hsan]⟩
        · rcases hlc : lookupChat st.privateChats (chatId.getD "") with - | chat
          · refine ⟨by simp [privateMessageHandler, hrl, hfs, hfal, hsan, hlc],
              by simp [privateMessageHandler, hrl, hfs, hfal, hsan, hlc],
              ?_, ?_, ?_⟩
            · intro hne
              exact absurd
                (by simp [privateMessageHandler, hrl, hfs, hfal, hsan, hlc]) hne
            · intro tid pm c f hmem
              simp [privateMessageHandler, hrl, hfs, hfal, hsan, hlc] at hmem
            · intro _
              exact ⟨by simp [privateMessageHandler, hrl, hfs, hfal, hsan, hlc],
                "Invalid chat room",
                by simp [privateMessageHandler, hrl, hfs, hfal, hsan, hlc]⟩
          · by_cases hpart : userData.username ∈ chat.participants
                ∧ (toUsername.getD "") ∈ chat.participants
            · have hvalid : pmChatValid st sid chatId toUsername := by
                unfold pmChatValid
                rw [hfs, hlc]
                exact hpart
              refine ⟨by simp [privateMessageHandler, hrl, hfs, hfal, hsan,
                  hlc, hpart],
                by simp [privateMessageHandler, hrl, hfs, hfal, hsan, hlc,
                  hpart],
                fun _ => hvalid, fun _ _ _ _ _ => hvalid,
                fun hnv => absurd hvalid hnv⟩
            · have hnvalid : ¬ pmChatValid st sid chatId toUsername := by
                unfold pmChatValid
                rw [hfs, hlc]
                exact hpart
              refine ⟨by simp [privateMessageHandler, hrl, hfs, hfal, hsan,
                  hlc, hpart],
                by simp [privateMessageHandler, hrl, hfs, hfal, hsan, hlc,
                  hpart], ?_, ?_, ?_⟩
              · intro hne
                exact absurd (by simp [privateMessageHandler, hrl, hfs, hfal,
                  hsan, hlc, hpart]) hne
              · intro tid pm c f hmem
                simp [privateMessageHandler, hrl, hfs, hfal, hsan, hlc,
                  hpart] at hmem
              · intro _
                exact ⟨by simp [privateMessageHandler, hrl, hfs, hfal, hsan,
                    hlc, hpart],
                  "Invalid chat room",
                  by simp [privateMessageHandler, hrl, hfs, hfal, hsan, hlc,
                    hpart]⟩

/-- io.sockets.sockets.get(tid) succeeds for a live connection; the
disconnect handler keeps connectedUsers a subset of the live sockets, so
socket existence for a registered session is presence in the registry. -/
def socketExists (st : ServerState) (tid : String) : Bool :=
  st.connectedUsers.any (fun s => decide (s.socketId = tid))

/-- The accept-private-chat socket handler (part_001 lines 393-450; the
src/server.js version at 409-432 is marked simplified): require a session
and a truthy, still-online inviter; create or fetch the chat; notify the
inviter with the chat id; and send the last 20 stored messages to both
ends only when the chat already has at least one stored message. -/
def acceptPrivateChatHandler (st : ServerState) (now : Int) (sid : String)
    (fromUsername : Option String) : ServerState × List Emit :=
  match findSession st.connectedUsers sid with
  | none => (st, [Emit.errorTo sid "User not found. Please refresh."])
  | some userData =>
    if jsFalsy fromUsername then (st, [Emit.errorTo sid "Invalid sender"])
    else
      let fromU := fromUsername.getD ""
      match findByUsername st.connectedUsers fromU with
      | none => (st, [Emit.errorTo sid "User is no longer online"])
      | some senderUser =>
        let gc := getOrCreatePrivateChat st.privateChats userData.username
          fromU now
        let st2 : ServerState := { st with privateChats := gc.1 }
        let e1 := if socketExists st senderUser.socketId then
            [Emit.acceptedTo senderUser.socketId userData.username gc.2]
          else []
        match lookupChat gc.1 gc.2 with
        | none => (st2, e1)
        | some chat =>
          if chat.messages.length > 0 then
            let last20 := chat.messages.drop (chat.messages.length - 20)
            (st2, e1 ++ [Emit.historyTo sid gc.2 last20 fromU]
              ++ (if socketExists st senderUser.socketId then
                  [Emit.historyTo senderUser.socketId gc.2 last20
                    userData.username]
                else []))
          else (st2, e1)

/-- The C7 claim as the spec states it: an accept from a live session with
the inviter still online notifies the inviter with the chat id and sends
both participants a private-chat-history event of up to the last 20 stored
messages — the empty list on first contact. -/
def C7_claimStatement : Prop :=
  ∀ (st : ServerState) (now : Int) (sid : String) (fromU : String)
    (userData senderUser : Session),
    findSession st.connectedUsers sid = some userData →
    ¬ fromU = "" →
    findByUsername st.connectedUsers fromU = some senderUser →
    (Emit.acceptedTo senderUser.socketId userData.username
        (chatIdFor userData.username fromU)
      ∈ (acceptPrivateChatHandler st now sid (some fromU)).2) ∧
    (∃ ms : List PrivMsg, ms.length ≤ 20 ∧
      Emit.historyTo sid (chatIdFor userData.username fromU) ms fromU
        ∈ (acceptPrivateChatHandler st now sid (some fromU)).2 ∧
      Emit.historyTo senderUser.socketId (chatIdFor userData.username fromU)
          ms userData.username
        ∈ (acceptPrivateChatHandler st now sid (some fromU)).2)

/-- The two-session state of the C7 concrete run: alice on s1, bob on s2,
no chats yet. -/
def stC7 : ServerState := ⟨[⟨"alice", "s1", "a"⟩, ⟨"bob", "s2", "b"⟩], [], [], []⟩

theorem findByUsername_mem (conns : List Session) (name : String)
    (s : Session) (h : findByUsername conns name = some s) : s ∈ conns := by
  induction conns with
  | nil => simp [findByUsername] at h
  | cons c rest ih =>
    by_cases hc : c.username = name
    · rw [show findByUsername (c :: rest) name = some c by
        simp [findByUsername, hc]] at h
      rw [← Option.some.inj h]
      exact List.mem_cons_self c rest
    · rw [show findByUsername (c :: rest) name = findByUsername rest name by
        simp [findByUsername, hc]] at h
      exact List.mem_cons_of_mem c (ih h)

theorem socketExists_of_mem (st : ServerState) (s : Session)
    (h : s ∈ st.connectedUsers) : socketExists st s.socketId = true := by
  unfold socketExists
  rw [List.any_eq_true]
  exact ⟨s, h, by simp⟩

theorem lookupChat_append_self (chats : List (String × Chat)) (cid : String)
    (c : Chat) (h : lookupChat chats cid = none) :
    lookupChat (chats ++ [(cid, c)]) cid = some c := by
  induction chats with
  | nil => simp [lookupChat]
  | cons p rest ih =>
    by_cases hp : p.1 = cid
    · rw [show lookupChat (p :: rest) cid = some p.2 by
        simp [lookupChat, hp]] at h
      exact absurd h (by simp)
    · rw [show lookupChat (p :: rest) cid = lookupChat rest cid by
        simp [lookupChat, hp]] at h
      rw [List.cons_append,
        show lookupChat (p :: (rest ++ [(cid, c)])) cid
          = lookupChat (rest ++ [(cid, c)]) cid by simp [lookupChat, hp]]
      exact ih h

theorem left_mem_sortedPair (u1 u2 : String) :
    u1 ∈ [sortedPairA u1 u2, sortedPairB u1 u2] := by
  unfold sortedPairA sortedPairB
  by_cases h : jsStrLt u2 u1 = true <;> simp [h]

theorem right_mem_sortedPair (u1 u2 : String) :
    u2 ∈ [sortedPairA u1 u2, sortedPairB u1 u2] := by
  unfold sortedPairA sortedPairB
  by_cases h : jsStrLt u2 u1 = true <;> simp [h]

/-- C7 fails on the code: on first contact (bob accepts alice, no chat
stored yet) the inviter gets the acceptance notice but nobody receives a
private-chat-history event — the handler sends history only when
chat.messages.length > 0, so no empty-list replay exists. The last two
conjuncts evaluate the run. -/
theorem C7_counterexample :
    ¬ C7_claimStatement ∧
    (acceptPrivateChatHandler stC7 0 "s2" (some "alice")).2
      = [Emit.acceptedTo "s1" "bob" "pc_alice_bob"] ∧
    (acceptPrivateChatHandler stC7 0 "s2" (some "alice")).1.privateChats
      = [("pc_alice_bob", ⟨"pc_alice_bob", ["alice", "bob"], [], 0⟩)] := by
  refine ⟨?_, by decide, by decide⟩
  intro h
  obtain ⟨-, ms, -, hmem, -⟩ := h stC7 0 "s2" "alice" ⟨"bob", "s2", "b"⟩
    ⟨"alice", "s1", "a"⟩ (by decide) (by decide) (by decide)
  rw [show (acceptPrivateChatHandler stC7 0 "s2" (some "alice")).2
      = [Emit.acceptedTo "s1" "bob" "pc_alice_bob"] from by decide,
    show chatIdFor (Session.mk "bob" "s2" "b").username "alice"
      = "pc_alice_bob" from by decide] at hmem
  simp at hmem

/-- C7 amended: with a live session and the inviter still online, the chat
is created lazily if absent (with both usernames as participants and an
empty log), the inviter is notified of the acceptance with the chat id,
and — only when the chat already holds at least one message — both ends
receive the last 20 stored messages; on first contact (absent chat or
empty log) no history event is emitted at all. -/
theorem C7_accept_notice_and_replay (st : ServerState) (now : Int)
    (sid : String) (fromU : String) (userData senderUser : Session)
    (hfs : findSession st.connectedUsers sid = some userData)
    (hne : ¬ fromU = "")
    (hon : findByUsername st.connectedUsers fromU = some senderUser) :
    (Emit.acceptedTo senderUser.socketId userData.username
        (chatIdFor userData.username fromU)
      ∈ (acceptPrivateChatHandler st now sid (some fromU)).2) ∧
    (lookupChat st.privateChats (chatIdFor userData.username fromU) = none →
      ∃ c : Chat,
        (acceptPrivateChatHandler st now sid (some fromU)).1.privateChats
          = st.privateChats ++ [(chatIdFor userData.username fromU, c)] ∧
        c.messages = [] ∧ userData.username ∈ c.participants
          ∧ fromU ∈ c.participants) ∧
    (∀ chat : Chat,
      lookupChat st.privateChats (chatIdFor userData.username fromU)
          = some chat →
      ¬ chat.messages = [] →
      (Emit.historyTo sid (chatIdFor userData.username fromU)
          (chat.messages.drop (chat.messages.length - 20)) fromU
        ∈ (acceptPrivateChatHandler st now sid (some fromU)).2 ∧
       Emit.historyTo senderUser.socketId (chatIdFor userData.username fromU)
          (chat.messages.drop (chat.messages.length - 20)) userData.username
        ∈ (acceptPrivateChatHandler st now sid (some fromU)).2 ∧
       (chat.messages.drop (chat.messages.length - 20)).length ≤ 20)) ∧
    ((lookupChat st.privateChats (chatIdFor userData.username fromU) = none
        ∨ (∃ chat : Chat,
            lookupChat st.privateChats (chatIdFor userData.username fromU)
              = some chat ∧ chat.messages = [])) →
      ∀ (tid c : String) (ms : List PrivMsg) (w : String),
        Emit.historyTo tid c ms w
          ∉ (acceptPrivateChatHandler st now sid (some fromU)).2) := by
  have hjs : jsFalsy (some fromU) = false := by simp [jsFalsy, hne]
  have hsock : socketExists st senderUser.socketId = true :=
    socketExists_of_mem st senderUser (findByUsername_mem _ _ _ hon)
  by_cases hlc : lookupChat st.privateChats (chatIdFor userData.username fromU)
      = none
  · have hgc : getOrCreatePrivateChat st.privateChats userData.username fromU
        now
        = (st.privateChats ++ [(chatIdFor userData.username fromU,
            ⟨chatIdFor userData.username fromU,
             [sortedPairA userData.username fromU,
              sortedPairB userData.username fromU], [], now⟩)],
           chatIdFor userData.username fromU) := by
      simp [getOrCreatePrivateChat, hlc]
    have hlk2 := lookupChat_append_self st.privateChats
      (chatIdFor userData.username fromU)
      ⟨chatIdFor userData.username fromU,
       [sortedPairA userData.username fromU,
        sortedPairB userData.username fromU], [], now⟩ hlc
    refine ⟨?_, ?_, ?_, ?_⟩
    · simp [acceptPrivateChatHandler, hfs, hjs, hon, hgc, hsock, hlk2]
    · intro _
      refine ⟨⟨chatIdFor userData.username fromU,
        [sortedPairA userData.username fromU,
         sortedPairB userData.username fromU], [], now⟩, ?_, rfl,
        left_mem_sortedPair userData.username fromU,
        right_mem_sortedPair userData.username fromU⟩
      simp [acceptPrivateChatHandler, hfs, hjs, hon, hgc, hsock, hlk2]
    · intro chat hchat _
      rw [hlc] at hchat
      exact absurd hchat (by simp)
    · intro _ tid c ms w
      simp [acceptPrivateChatHandler, hfs, hjs, hon, hgc, hsock, hlk2]
  · obtain ⟨chat, hchat⟩ := Option.ne_none_iff_exists'.mp hlc
    have hgc : getOrCreatePrivateChat st.privateChats userData.username fromU
        now = (st.privateChats, chatIdFor userData.username fromU) := by
      simp [getOrCreatePrivateChat, hchat]
    by_cases hemp : chat.messages = []
    · refine ⟨?_, ?_, ?_, ?_⟩
      · simp [acceptPrivateChatHandler, hfs, hjs, hon, hgc, hsock, hchat, hemp]
      · intro hnone
        rw [hchat] at hnone
        exact absurd hnone (by simp)
      · intro chat2 hchat2 hne2
        rw [hchat] at hchat2
        cases Option.some.inj hchat2
        exact absurd hemp hne2
      · intro _ tid c ms w
        simp [acceptPrivateChatHandler, hfs, hjs, hon, hgc, hsock, hchat, hemp]
    · have hlen : chat.messages.length > 0 := List.length_pos.mpr hemp
      refine ⟨?_, ?_, ?_, ?_⟩
      · simp [acceptPrivateChatHandler, hfs, hjs, hon, hgc, hsock, hchat, hlen]
      · intro hnone
        rw [hchat] at hnone
        exact absurd hnone (by simp)
      · intro chat2 hchat2 hne2
        rw [hchat] at hchat2
        cases Option.some.inj hchat2
        refine ⟨?_, ?_, ?_⟩
        · simp [acceptPrivateChatHandler, hfs, hjs, hon, hgc, hsock, hchat,
            hlen]
        · simp [acceptPrivateChatHandler, hfs, hjs, hon, hgc, hsock, hchat,
            hlen]
        · rw [List.length_drop]
          omega
      · intro hdisj tid c ms w
        rcases hdisj with hnone | ⟨chat2, hchat2, hemp2⟩
        · rw [hchat] at hnone
          exact absurd hnone (by simp)
        · rw [hchat] at hchat2
          cases Option.some.inj hchat2
          exact absurd hemp2 hemp

/-- Witness for the amended C7 at the concrete first-contact run: bob
accepts alice and the inviter socket s1 receives the acceptance notice
with the derived chat id. -/
theorem C7_accept_notice_and_replay_witness :
    Emit.acceptedTo "s1" "bob" (chatIdFor "bob" "alice")
      ∈ (acceptPrivateChatHandler stC7 0 "s2" (some "alice")).2 :=
  (C7_accept_notice_and_replay stC7 0 "s2" "alice" ⟨"bob", "s2", "b"⟩
    ⟨"alice", "s1", "a"⟩ (by decide) (by decide) (by decide)).1
